import Mathlib

/-!
Shallow embedding of src/src/list.c (the akvcam doubly linked list) and a
verification of the specification claims about it.

Modelling conventions:
* Pointers to list element nodes are natural numbers; 0 is the NULL pointer.
* The node storage (kzalloc / kfree) is an association list from node
  addresses to node contents; hlookup is a pointer dereference.  A failed
  dereference (NULL or dangling pointer) makes the modelled C function
  return none, which stands for a fault / undefined behaviour.
* Payload pointers (void *data) are Option (List Nat): none is NULL and
  some b is a pointer to a heap block whose byte contents are b.
* Deleter function pointers are Option Nat (a function identity); invoking
  a deleter is recorded in a call log returned by the operation.
* akvcam_set_last_error is modelled by returning the value written to the
  last-error slot (none means the call wrote nothing to the slot).
* Allocation success or failure (kzalloc, kmemdup) is an explicit boolean
  oracle argument, and the fresh nonzero address returned by a successful
  node allocation is likewise passed explicitly.
-/

namespace Akvcam

/-- Contents of a struct akvcam_list_element (list.c lines 24-30). -/
structure Node where
  data : Option (List Nat)
  deleter : Option Nat
  prev : Nat
  next : Nat
deriving DecidableEq

/-- The node store: an association list from addresses to node contents. -/
abbrev Heap := List (Nat × Node)

/-- Contents of a struct akvcam_list (list.c lines 32-38).  The reference
counting wrapper field (self) is an external collaborator and not modelled. -/
structure ListState where
  heap : Heap
  size : Nat
  head : Nat
  tail : Nat
deriving DecidableEq

/-- The type of the equality callback akvcam_are_equals_t used by find:
it receives the candidate payload pointer, the target pointer and the
length argument. -/
abbrev EqPred : Type := Option (List Nat) → List Nat → Nat → Bool

/-- Pointer dereference in the node store. -/
def hlookup : Heap → Nat → Option Node
  | [], _ => none
  | kv :: h, p => if kv.1 = p then some kv.2 else hlookup h p

/-- Writing one field of the node at address p through a pointer. -/
def hupdate (h : Heap) (p : Nat) (f : Node → Node) : Heap :=
  h.map (fun kv => if kv.1 = p then (kv.1, f kv.2) else kv)

/-- kfree of the node at address p. -/
def hremove (h : Heap) (p : Nat) : Heap :=
  h.filter (fun kv => kv.1 != p)

/-- The deleter invocations performed by the statement
if (x->data && x->deleter) x->deleter(&x->data);
(list.c lines 225-226 and 251-252): one call when both the payload and the
deleter are non NULL, no call otherwise. -/
def delCallOf (data : Option (List Nat)) (deleter : Option Nat) : List Nat :=
  match data, deleter with
  | some _, some d => [d]
  | _, _ => []

/-- memcmp(d, t, n) == 0 as an Option Bool: none models the fault of
reading n > 0 bytes through a NULL pointer or past the end of a block;
reading 0 bytes always succeeds and compares equal. -/
def memcmpOpt (d : Option (List Nat)) (t : List Nat) (n : Nat) : Option Bool :=
  if n = 0 then some true
  else
    match d with
    | none => none
    | some b =>
      if n ≤ b.length ∧ n ≤ t.length then some (decide (b.take n = t.take n))
      else none

/-- The pointer walk for (e = 0; e < i; e++) element = element->next;
starting at address p (list.c lines 113-116 and 191-194). -/
def walkI (h : Heap) : Nat → Nat → Option Nat
  | p, 0 => some p
  | p, i + 1 =>
    match hlookup h p with
    | none => none
    | some nd => walkI h nd.next i

/-- akvcam_list_size (list.c lines 80-86). -/
def akvcam_list_size (self : Option ListState) : Nat :=
  match self with
  | none => 0
  | some s => s.size

/-- akvcam_list_empty (list.c lines 88-94). -/
def akvcam_list_empty (self : Option ListState) : Bool :=
  match self with
  | none => true
  | some s => decide (s.size < 1)

/-- The kind of value a void pointer returned by akvcam_list_at stands
for: NULL, a pointer to a payload block, or a pointer to a list element
node. -/
inductive CVal where
  | null : CVal
  | bytes : List Nat → CVal
  | node : Nat → CVal
deriving DecidableEq

/-- Reading of an element data field as a returned void pointer. -/
def dataToCVal (d : Option (List Nat)) : CVal :=
  match d with
  | none => CVal.null
  | some b => CVal.bytes b

/-- akvcam_list_at (list.c lines 96-119).  Returns none on a faulting
dereference; note that for i == size - 1 (with i different from 0) the C
code returns self->tail, the element node pointer itself. -/
def akvcam_list_at (self : Option ListState) (i : Nat) : Option CVal :=
  match self with
  | none => some CVal.null
  | some s =>
    if i ≥ s.size then some CVal.null
    else if i = 0 then
      match hlookup s.heap s.head with
      | none => none
      | some nd => some (dataToCVal nd.data)
    else if i = s.size - 1 then some (CVal.node s.tail)
    else
      match walkI s.heap s.head i with
      | none => none
      | some p =>
        match hlookup s.heap p with
        | none => none
        | some nd => some (dataToCVal nd.data)

/-- akvcam_list_push_back (list.c lines 121-154).  Returns the new list
state, the boolean result, and the value written to the last-error slot
(none when nothing was written).  allocOk is the kzalloc oracle and newId
the fresh address returned by a successful allocation. -/
def akvcam_list_push_back (self : Option ListState) (data : Option (List Nat))
    (deleter : Option Nat) (allocOk : Bool) (newId : Nat) :
    Option ListState × Bool × Option Int :=
  match self with
  | none => (none, false, none)
  | some s =>
    if allocOk = false then (some s, false, some (-12))
    else
      let element : Node := { data := data, deleter := deleter, prev := s.tail, next := 0 }
      if s.tail ≠ 0 then
        (some { heap := hupdate s.heap s.tail (fun nd => { nd with next := newId }) ++ [(newId, element)],
                size := s.size + 1, head := s.head, tail := newId },
         true, some 0)
      else
        (some { heap := s.heap ++ [(newId, element)],
                size := s.size + 1, head := newId, tail := newId },
         true, some 0)

/-- kmemdup(src, n, GFP_KERNEL): a fresh copy of the first n bytes of the
source block on success, NULL on allocation failure. -/
def kmemdup (src : List Nat) (n : Nat) (dupOk : Bool) : Option (List Nat) :=
  if dupOk then some (src.take n) else none

/-- akvcam_list_push_back_copy (list.c lines 156-164): the result of
kmemdup is passed to akvcam_list_push_back without any check. -/
def akvcam_list_push_back_copy (self : Option ListState) (src : List Nat)
    (dataSize : Nat) (deleter : Option Nat) (dupOk allocOk : Bool) (newId : Nat) :
    Option ListState × Bool × Option Int :=
  akvcam_list_push_back self (kmemdup src dataSize dupOk) deleter allocOk newId

/-- akvcam_list_pop (list.c lines 166-217).  The result is none on a
faulting dereference, otherwise (new handle state, value written to *data,
value written to *deleter, returned bool); both output pointers are
assumed provided by the caller (the C guards if (data) / if (deleter) only
cover callers passing NULL output pointers). -/
def akvcam_list_pop (self : Option ListState) (i : Nat) :
    Option (Option ListState × Option (List Nat) × Option Nat × Bool) :=
  match self with
  | none => some (none, none, none, false)
  | some s =>
    if i ≥ s.size ∨ s.size < 1 then some (some s, none, none, false)
    else
      let elemPtr : Option Nat :=
        if i = 0 then some s.head
        else if i = s.size - 1 then some s.tail
        else walkI s.heap s.head i
      match elemPtr with
      | none => none
      | some p =>
        match hlookup s.heap p with
        | none => none
        | some nd =>
          let h1 := if nd.prev ≠ 0 then hupdate s.heap nd.prev (fun m => { m with next := nd.next }) else s.heap
          let head1 := if nd.prev ≠ 0 then s.head else nd.next
          let h2 := if nd.next ≠ 0 then hupdate h1 nd.next (fun m => { m with prev := nd.prev }) else h1
          let tail1 := if nd.next ≠ 0 then s.tail else nd.prev
          some (some { heap := hremove h2 p, size := s.size - 1, head := head1, tail := tail1 },
                nd.data, nd.deleter, true)

/-- The loop of akvcam_list_erase (list.c lines 221-237): scan from p
following next until NULL or until the scanned pointer equals the target;
on a match invoke the deleter (when payload and deleter are present),
relink the neighbours, kfree the node and stop.  The fuel argument bounds
the number of iterations; running out of fuel (an unbounded walk) and a
faulting dereference are both none. -/
def eraseLoop (h : Heap) (target : Nat) : Nat → Nat → Option (Heap × List Nat)
  | 0, p => if p = 0 then some (h, []) else none
  | fuel + 1, p =>
    if p = 0 then some (h, [])
    else
      match hlookup h p with
      | none => none
      | some nd =>
        if p = target then
          let h1 := if nd.prev ≠ 0 then hupdate h nd.prev (fun m => { m with next := nd.next }) else h
          let h2 := if nd.next ≠ 0 then hupdate h1 nd.next (fun m => { m with prev := nd.prev }) else h1
          some (hremove h2 p, delCallOf nd.data nd.deleter)
        else eraseLoop h target fuel nd.next

/-- akvcam_list_erase (list.c lines 219-238).  The C function dereferences
self->head without a NULL check on self, so a none handle is a fault; it
never updates size, head or tail.  The result carries the state after the
call and the deleter call log. -/
def akvcam_list_erase (self : Option ListState) (element : Nat) :
    Option (ListState × List Nat) :=
  match self with
  | none => none
  | some s =>
    match eraseLoop s.heap element (s.heap.length + 1) s.head with
    | none => none
    | some (h, calls) => some ({ s with heap := h }, calls)

/-- The loop of akvcam_list_clear (list.c lines 250-257): invoke the
deleter of each node (when payload and deleter are present), capture next,
kfree the node and continue, with fuel bounding the iteration count. -/
def clearLoop : Heap → Nat → Nat → Option (Heap × List Nat)
  | h, 0, p => if p = 0 then some (h, []) else none
  | h, fuel + 1, p =>
    if p = 0 then some (h, [])
    else
      match hlookup h p with
      | none => none
      | some nd =>
        match clearLoop (hremove h p) fuel nd.next with
        | none => none
        | some (h2, calls) => some (h2, delCallOf nd.data nd.deleter ++ calls)

/-- akvcam_list_clear (list.c lines 240-260): a NULL handle is a checked
no-op; otherwise every chain node is destroyed and the final
memset(self, 0, ...) zeroes size, head and tail. -/
def akvcam_list_clear (self : Option ListState) :
    Option (Option ListState × List Nat) :=
  match self with
  | none => some (none, [])
  | some s =>
    match clearLoop s.heap (s.heap.length + 1) s.head with
    | none => none
    | some (h, calls) => some (some { heap := h, size := 0, head := 0, tail := 0 }, calls)

/-- The loop of akvcam_list_find (list.c lines 276-287): k counted
iterations starting at address p; each iteration tests the current element
with the equality callback when supplied and with memcmp otherwise, and
returns the element on a match. -/
def findLoop (h : Heap) (t : List Nat) (n : Nat) (eq : Option EqPred) :
    Nat → Nat → Option (Option Nat)
  | 0, _ => some none
  | k + 1, p =>
    match hlookup h p with
    | none => none
    | some nd =>
      match eq with
      | some f =>
        if f nd.data t n then some (some p)
        else findLoop h t n eq k nd.next
      | none =>
        match memcmpOpt nd.data t n with
        | none => none
        | some b => if b then some (some p) else findLoop h t n eq k nd.next

/-- akvcam_list_find (list.c lines 262-290).  The outer Option is the
fault channel; the inner Option Nat is the returned element pointer (none
is the NULL not-found result).  The tail is always checked first with
memcmp, then the loop scans size - 1 elements from the head. -/
def akvcam_list_find (self : Option ListState) (t : List Nat) (n : Nat)
    (eq : Option EqPred) : Option (Option Nat) :=
  match self with
  | none => some none
  | some s =>
    if s.size < 1 then some none
    else if n == 0 && eq.isNone then some none
    else
      match hlookup s.heap s.tail with
      | none => none
      | some tnd =>
        match memcmpOpt tnd.data t n with
        | none => none
        | some b =>
          if b then some (some s.tail)
          else findLoop s.heap t n eq (s.size - 1) s.head

/-- akvcam_list_next (list.c lines 292-306).  The cursor argument is the
contents of the element variable whose address the caller passes (none
models a NULL element pointer).  The result is (returned void pointer as a
payload, new cursor value); a dereference of a dangling cursor is none. -/
def akvcam_list_next (self : Option ListState) (cursor : Option Nat) :
    Option (Option (List Nat) × Option Nat) :=
  match self, cursor with
  | none, c => some (none, c)
  | some _, none => some (none, none)
  | some s, some c =>
    if c ≠ 0 then
      match hlookup s.heap c with
      | none => none
      | some nd =>
        if nd.next ≠ 0 then
          match hlookup s.heap nd.next with
          | none => none
          | some nd2 => some (nd2.data, some nd.next)
        else some (none, some 0)
    else
      if s.head ≠ 0 then
        match hlookup s.heap s.head with
        | none => none
        | some nd => some (nd.data, some s.head)
      else some (none, some 0)

/-- An abstract list element: node address, payload pointer, deleter. -/
structure Elem where
  id : Nat
  data : Option (List Nat)
  deleter : Option Nat
deriving DecidableEq

/-- The node addresses of an abstract element list. -/
def idsOf (elems : List Elem) : List Nat :=
  elems.map (fun e => e.id)

/-- The address of the first element, or a default for an empty list. -/
def headIdD : List Elem → Nat → Nat
  | [], d => d
  | e :: _, _ => e.id

/-- The address of the last element, or a default for an empty list. -/
def lastIdD : List Elem → Nat → Nat
  | [], d => d
  | e :: rest, _ => lastIdD rest e.id

/-- The node store of a chain holding elems in order, where the prev field
of the first node is prevId and the next field of the last node is
nextId. -/
def linkSeg : Nat → Nat → List Elem → Heap
  | _, _, [] => []
  | prevId, nextId, e :: rest =>
    (e.id, { data := e.data, deleter := e.deleter, prev := prevId, next := headIdD rest nextId }) ::
      linkSeg e.id nextId rest

/-- The list state whose chain holds exactly elems in order. -/
def mkState (elems : List Elem) : ListState :=
  { heap := linkSeg 0 0 elems, size := elems.length,
    head := headIdD elems 0, tail := lastIdD elems 0 }

/-- Well-formedness of an abstract element list: node addresses are
pairwise distinct and none of them is the NULL address. -/
def WfElems (elems : List Elem) : Prop :=
  (idsOf elems).Nodup ∧ 0 ∉ idsOf elems

instance (elems : List Elem) : Decidable (WfElems elems) := by
  unfold WfElems; infer_instance

/-- The structural invariant of a list state: it is the state of a
well-formed chain of elements (size counts the chain, head and tail point
at its ends, prev and next fields tie consecutive nodes together). -/
def Wf (s : ListState) : Prop :=
  ∃ elems : List Elem, WfElems elems ∧ s = mkState elems

/-- The deleter calls performed by destroying elems front to back. -/
def delCalls (elems : List Elem) : List Nat :=
  elems.foldr (fun e acc => delCallOf e.data e.deleter ++ acc) []

/-- Boolean byte equality of the first n bytes of a payload block with the
first n bytes of the target: the specification-level reading of a
successful memcmp comparison. -/
def memEqN (d : Option (List Nat)) (t : List Nat) (n : Nat) : Bool :=
  if n = 0 then true
  else
    match d with
    | none => false
    | some b => decide (b.take n = t.take n)

/-- True when a payload block is present and at least n bytes long (so
that memcmp may read n bytes from it without a fault). -/
def dataAtLeast (n : Nat) (d : Option (List Nat)) : Bool :=
  match d with
  | none => false
  | some b => decide (n ≤ b.length)

/-- One element test of the find scan: the equality callback when
supplied, byte equality otherwise. -/
def payloadMatches (eq : Option EqPred) (d : Option (List Nat)) (t : List Nat) (n : Nat) : Bool :=
  match eq with
  | some f => f d t n
  | none => memEqN d t n

/-- Modelled from the specification wording of the find operation, for
comparison with the code: not found for an empty list or when neither a
length nor an equality callback is given; otherwise the tail is checked
first by exact byte comparison regardless of the callback, and then
positions 0 through size - 2 are scanned from the head with the callback
when supplied and byte equality otherwise, returning the first match. -/
def findList (elems : List Elem) (t : List Nat) (n : Nat) (eq : Option EqPred) : Option Nat :=
  match elems.getLast? with
  | none => none
  | some tl =>
    if n = 0 ∧ eq.isNone then none
    else if memEqN tl.data t n then some tl.id
    else (elems.dropLast.find? (fun e => payloadMatches eq e.data t n)).map (fun e => e.id)

@[simp]
theorem idsOf_nil : idsOf [] = [] := rfl

@[simp]
theorem idsOf_cons (e : Elem) (l : List Elem) : idsOf (e :: l) = e.id :: idsOf l := rfl

@[simp]
theorem idsOf_append (A B : List Elem) : idsOf (A ++ B) = idsOf A ++ idsOf B := by
  simp [idsOf]

theorem lastIdD_indep {l : List Elem} (h : l ≠ []) (d d2 : Nat) :
    lastIdD l d = lastIdD l d2 := by
  cases l with
  | nil => exact absurd rfl h
  | cons e rest => rfl

theorem lastIdD_append (A B : List Elem) (d : Nat) :
    lastIdD (A ++ B) d = lastIdD B (lastIdD A d) := by
  induction A generalizing d with
  | nil => rfl
  | cons a A ih => simpa [lastIdD] using ih a.id

theorem headIdD_append (A B : List Elem) (d : Nat) :
    headIdD (A ++ B) d = headIdD A (headIdD B d) := by
  cases A <;> rfl

theorem lastIdD_mem {l : List Elem} (h : l ≠ []) (d : Nat) :
    lastIdD l d ∈ idsOf l := by
  induction l generalizing d with
  | nil => exact absurd rfl h
  | cons e rest ih =>
    cases rest with
    | nil => simp [lastIdD]
    | cons e2 r2 =>
      have hmem := ih (by simp) e.id
      simpa [lastIdD] using Or.inr hmem

theorem headIdD_mem {l : List Elem} (h : l ≠ []) (d : Nat) :
    headIdD l d ∈ idsOf l := by
  cases l with
  | nil => exact absurd rfl h
  | cons e rest => simp [headIdD]

theorem hlookup_append_none {h1 : Heap} (h2 : Heap) {p : Nat}
    (h : hlookup h1 p = none) : hlookup (h1 ++ h2) p = hlookup h2 p := by
  induction h1 with
  | nil => rfl
  | cons kv t ih =>
    by_cases hkv : kv.1 = p
    · simp [hlookup, hkv] at h
    · simp [hlookup, hkv] at h ⊢
      exact ih h

theorem hlookup_linkSeg_not_mem {l : List Elem} {q : Nat} (h : q ∉ idsOf l)
    (p n : Nat) : hlookup (linkSeg p n l) q = none := by
  induction l generalizing p with
  | nil => rfl
  | cons e rest ih =>
    simp only [idsOf_cons, List.mem_cons, not_or] at h
    have he : e.id ≠ q := fun hh => h.1 hh.symm
    simp [linkSeg, hlookup, he]
    exact ih h.2 e.id

theorem hupdate_append (h1 h2 : Heap) (p : Nat) (f : Node → Node) :
    hupdate (h1 ++ h2) p f = hupdate h1 p f ++ hupdate h2 p f := by
  simp [hupdate]

theorem hupdate_linkSeg_not_mem {l : List Elem} {q : Nat} (h : q ∉ idsOf l)
    (p n : Nat) (f : Node → Node) : hupdate (linkSeg p n l) q f = linkSeg p n l := by
  induction l generalizing p with
  | nil => rfl
  | cons e rest ih =>
    simp only [idsOf_cons, List.mem_cons, not_or] at h
    have he : e.id ≠ q := fun hh => h.1 hh.symm
    simp [linkSeg, hupdate, he] at ih ⊢
    exact ih h.2 e.id

theorem hremove_append (h1 h2 : Heap) (p : Nat) :
    hremove (h1 ++ h2) p = hremove h1 p ++ hremove h2 p := by
  simp [hremove]

theorem hremove_linkSeg_not_mem {l : List Elem} {q : Nat} (h : q ∉ idsOf l)
    (p n : Nat) : hremove (linkSeg p n l) q = linkSeg p n l := by
  induction l generalizing p with
  | nil => rfl
  | cons e rest ih =>
    simp only [idsOf_cons, List.mem_cons, not_or] at h
    have he : e.id ≠ q := fun hh => h.1 hh.symm
    simp [linkSeg, hremove, he] at ih ⊢
    exact ih h.2 e.id

theorem hupdate_cons (kv : Nat × Node) (h : Heap) (p : Nat) (f : Node → Node) :
    hupdate (kv :: h) p f = (if kv.1 = p then (kv.1, f kv.2) else kv) :: hupdate h p f := rfl

theorem linkSeg_append (A B : List Elem) (p n : Nat) :
    linkSeg p n (A ++ B) =
      linkSeg p (headIdD B n) A ++ linkSeg (lastIdD A p) n B := by
  induction A generalizing p with
  | nil => rfl
  | cons a A ih =>
    show linkSeg p n (a :: (A ++ B)) = _
    rw [show linkSeg p n (a :: (A ++ B)) =
          (a.id, { data := a.data, deleter := a.deleter, prev := p,
                   next := headIdD (A ++ B) n }) :: linkSeg a.id n (A ++ B) from rfl]
    rw [ih a.id, headIdD_append]
    rfl

theorem linkSeg_length (l : List Elem) (p n : Nat) :
    (linkSeg p n l).length = l.length := by
  induction l generalizing p with
  | nil => rfl
  | cons e rest ih => simp [linkSeg, ih e.id]

theorem hupdate_linkSeg_last {A : List Elem} (hA : A ≠ [])
    (hnd : (idsOf A).Nodup) (p n m : Nat) :
    hupdate (linkSeg p n A) (lastIdD A 0) (fun nd => { nd with next := m }) =
      linkSeg p m A := by
  induction A generalizing p with
  | nil => exact absurd rfl hA
  | cons a A ih =>
    cases A with
    | nil => simp [linkSeg, lastIdD, hupdate, headIdD]
    | cons a2 A2 =>
      have hhead : a.id ∉ idsOf (a2 :: A2) := (List.nodup_cons.mp (by simpa using hnd)).1
      have htgt : lastIdD A2 a2.id ∈ idsOf (a2 :: A2) := by
        simpa [lastIdD] using lastIdD_mem (l := a2 :: A2) (by simp) 0
      have hane : a.id ≠ lastIdD A2 a2.id := fun hh => hhead (hh ▸ htgt)
      have hnd2 : (idsOf (a2 :: A2)).Nodup := (List.nodup_cons.mp (by simpa using hnd)).2
      have ih2 := ih (by simp) hnd2 a.id
      simp only [lastIdD] at ih2 ⊢
      rw [show linkSeg p n (a :: a2 :: A2) =
            (a.id, { data := a.data, deleter := a.deleter, prev := p, next := a2.id }) ::
              linkSeg a.id n (a2 :: A2) from rfl]
      rw [hupdate_cons, if_neg hane, ih2]
      rfl

theorem hupdate_linkSeg_head {B : List Elem} (hB : B ≠ [])
    (hnd : (idsOf B).Nodup) (q n m : Nat) :
    hupdate (linkSeg q n B) (headIdD B 0) (fun nd => { nd with prev := m }) =
      linkSeg m n B := by
  cases B with
  | nil => exact absurd rfl hB
  | cons b B2 =>
    have hb : b.id ∉ idsOf B2 := (List.nodup_cons.mp (by simpa using hnd)).1
    simp only [headIdD]
    rw [show linkSeg q n (b :: B2) =
          (b.id, { data := b.data, deleter := b.deleter, prev := q,
                   next := headIdD B2 n }) :: linkSeg b.id n B2 from rfl]
    rw [hupdate_cons, if_pos rfl, hupdate_linkSeg_not_mem hb b.id n]
    rfl

theorem hlookup_linkSeg_split {A : List Elem} {x : Elem} {B : List Elem}
    (hnd : (idsOf (A ++ x :: B)).Nodup) :
    hlookup (linkSeg 0 0 (A ++ x :: B)) x.id =
      some { data := x.data, deleter := x.deleter,
             prev := lastIdD A 0, next := headIdD B 0 } := by
  rw [linkSeg_append]
  have hxA : x.id ∉ idsOf A := by
    rw [idsOf_append, List.nodup_append] at hnd
    exact fun hmem => hnd.2.2 hmem (by simp)
  rw [hlookup_append_none _ (hlookup_linkSeg_not_mem hxA _ _)]
  simp [linkSeg, hlookup]

theorem lastIdD_ne_zero {A : List Elem} (hA : A ≠ []) (h0 : 0 ∉ idsOf A) :
    lastIdD A 0 ≠ 0 := fun hh => h0 (hh ▸ lastIdD_mem hA 0)

theorem headIdD_ne_zero {A : List Elem} (hA : A ≠ []) (h0 : 0 ∉ idsOf A) :
    headIdD A 0 ≠ 0 := fun hh => h0 (hh ▸ headIdD_mem hA 0)

theorem hremove_cons (kv : Nat × Node) (h : Heap) (p : Nat) :
    hremove (kv :: h) p = if kv.1 = p then hremove h p else kv :: hremove h p := by
  by_cases hkv : kv.1 = p
  · simp [hremove, List.filter_cons, hkv]
  · simp [hremove, List.filter_cons, hkv]

theorem wf_split {A : List Elem} {x : Elem} {B : List Elem}
    (h : WfElems (A ++ x :: B)) :
    (idsOf A).Nodup ∧ (idsOf B).Nodup ∧ x.id ∉ idsOf A ∧ x.id ∉ idsOf B ∧
      x.id ≠ 0 ∧ 0 ∉ idsOf A ∧ 0 ∉ idsOf B ∧ ∀ q ∈ idsOf A, q ∉ idsOf B := by
  obtain ⟨hnd, h0⟩ := h
  simp only [idsOf_append, idsOf_cons] at hnd h0
  rw [List.nodup_append] at hnd
  obtain ⟨hA, hxB, hdisj⟩ := hnd
  rw [List.nodup_cons] at hxB
  simp only [List.mem_append, List.mem_cons, not_or] at h0
  refine ⟨hA, hxB.2, ?_, hxB.1, ?_, h0.1, h0.2.2, ?_⟩
  · intro hmem
    exact hdisj hmem (by simp)
  · intro hh
    exact h0.2.1 hh.symm
  · intro q hqA hqB
    exact hdisj hqA (by simp [hqB])

theorem relink_remove {A : List Elem} {x : Elem} {B : List Elem}
    (h : WfElems (A ++ x :: B)) :
    hremove
      (if headIdD B 0 ≠ 0 then
        hupdate
          (if lastIdD A 0 ≠ 0 then
            hupdate (linkSeg 0 0 (A ++ x :: B)) (lastIdD A 0)
              (fun m => { m with next := headIdD B 0 })
          else linkSeg 0 0 (A ++ x :: B))
          (headIdD B 0) (fun m => { m with prev := lastIdD A 0 })
      else
        if lastIdD A 0 ≠ 0 then
          hupdate (linkSeg 0 0 (A ++ x :: B)) (lastIdD A 0)
            (fun m => { m with next := headIdD B 0 })
        else linkSeg 0 0 (A ++ x :: B))
      x.id = linkSeg 0 0 (A ++ B) := by
  obtain ⟨hndA, hndB, hxA, hxB, hx0, h0A, h0B, hAB⟩ := wf_split h
  by_cases hA : A = []
  · subst hA
    by_cases hB : B = []
    · subst hB
      simp [linkSeg, lastIdD, headIdD, hremove, List.filter_cons]
    · have hq : headIdD B 0 ≠ 0 := headIdD_ne_zero hB h0B
      have hxq : x.id ≠ headIdD B 0 := fun hh => hxB (hh ▸ headIdD_mem hB 0)
      rw [if_pos hq, if_neg (by simp [lastIdD])]
      simp only [List.nil_append, lastIdD]
      rw [show linkSeg 0 0 (x :: B) =
            (x.id, { data := x.data, deleter := x.deleter, prev := 0,
                     next := headIdD B 0 }) :: linkSeg x.id 0 B from rfl]
      rw [hupdate_cons, if_neg hxq, hupdate_linkSeg_head hB hndB]
      rw [hremove_cons, if_pos rfl, hremove_linkSeg_not_mem hxB]
  · have hp : lastIdD A 0 ≠ 0 := lastIdD_ne_zero hA h0A
    have hpx : x.id ≠ lastIdD A 0 := fun hh => hxA (hh.symm ▸ lastIdD_mem hA 0)
    have hpB : lastIdD A 0 ∉ idsOf B := hAB _ (lastIdD_mem hA 0)
    by_cases hB : B = []
    · subst hB
      rw [if_neg (by simp [headIdD]), if_pos hp]
      rw [linkSeg_append A [x] 0 0]
      simp only [headIdD, List.append_nil]
      rw [show linkSeg (lastIdD A 0) 0 [x] =
            [(x.id, { data := x.data, deleter := x.deleter, prev := lastIdD A 0,
                      next := 0 })] from rfl]
      rw [hupdate_append, hupdate_linkSeg_last hA hndA, hupdate_cons, if_neg hpx]
      rw [hremove_append, hremove_linkSeg_not_mem hxA, hremove_cons, if_pos rfl]
      simp [hremove, hupdate]
    · have hq : headIdD B 0 ≠ 0 := headIdD_ne_zero hB h0B
      have hxq : x.id ≠ headIdD B 0 := fun hh => hxB (hh ▸ headIdD_mem hB 0)
      have hqA : headIdD B 0 ∉ idsOf A := fun hmem => hAB _ hmem (headIdD_mem hB 0)
      rw [if_pos hq, if_pos hp]
      rw [linkSeg_append A (x :: B) 0 0]
      rw [show linkSeg (lastIdD A 0) 0 (x :: B) =
            (x.id, { data := x.data, deleter := x.deleter, prev := lastIdD A 0,
                     next := headIdD B 0 }) :: linkSeg x.id 0 B from rfl]
      rw [show headIdD (x :: B) 0 = x.id from rfl]
      rw [hupdate_append, hupdate_linkSeg_last hA hndA, hupdate_cons,
        if_neg hpx, hupdate_linkSeg_not_mem hpB]
      rw [hupdate_append, hupdate_linkSeg_not_mem hqA, hupdate_cons,
        if_neg hxq, hupdate_linkSeg_head hB hndB]
      rw [hremove_append, hremove_linkSeg_not_mem hxA, hremove_cons, if_pos rfl,
        hremove_linkSeg_not_mem hxB]
      rw [linkSeg_append A B 0 0]

theorem walkI_linkSeg : ∀ (i : Nat) (A B : List Elem),
    (idsOf (A ++ B)).Nodup → ∀ (hi : i < B.length),
    walkI (linkSeg 0 0 (A ++ B)) (headIdD B 0) i = some ((B.get ⟨i, hi⟩).id) := by
  intro i
  induction i with
  | zero =>
    intro A B hnd hi
    cases B with
    | nil => simp at hi
    | cons b B2 => simp [walkI, headIdD]
  | succ i ih =>
    intro A B hnd hi
    cases B with
    | nil => simp at hi
    | cons b B2 =>
      have hb := hlookup_linkSeg_split (A := A) (x := b) (B := B2) hnd
      rw [show headIdD (b :: B2) 0 = b.id from rfl]
      simp only [walkI, hb]
      have heq : A ++ b :: B2 = (A ++ [b]) ++ B2 := by simp
      rw [heq]
      have hnd2 : (idsOf ((A ++ [b]) ++ B2)).Nodup := by rw [← heq]; exact hnd
      rw [ih (A ++ [b]) B2 hnd2 (Nat.lt_of_succ_lt_succ hi)]
      rfl

theorem get_append_len : ∀ (A : List Elem) (x : Elem) (B : List Elem)
    (h : A.length < (A ++ x :: B).length), (A ++ x :: B).get ⟨A.length, h⟩ = x := by
  intro A
  induction A with
  | nil => intro x B h; rfl
  | cons a A2 ih =>
    intro x B h
    exact ih x B (by simp only [List.length_append, List.length_cons]; omega)

theorem head_after {A : List Elem} (x : Elem) (B : List Elem) (h0A : 0 ∉ idsOf A) :
    (if lastIdD A 0 ≠ 0 then headIdD (A ++ x :: B) 0 else headIdD B 0) =
      headIdD (A ++ B) 0 := by
  cases A with
  | nil => simp [lastIdD, headIdD]
  | cons a A2 =>
    rw [if_pos (lastIdD_ne_zero (by simp) h0A)]
    rfl

theorem tail_after (A : List Elem) (x : Elem) {B : List Elem} (h0B : 0 ∉ idsOf B) :
    (if headIdD B 0 ≠ 0 then lastIdD (A ++ x :: B) 0 else lastIdD A 0) =
      lastIdD (A ++ B) 0 := by
  cases B with
  | nil => simp [headIdD, lastIdD]
  | cons b B2 =>
    rw [if_pos (headIdD_ne_zero (by simp) h0B)]
    rw [lastIdD_append A (x :: b :: B2) 0, lastIdD_append A (b :: B2) 0]
    rfl

theorem select_mkState {A : List Elem} {x : Elem} {B : List Elem}
    (h : WfElems (A ++ x :: B)) :
    (if A.length = 0 then some (headIdD (A ++ x :: B) 0)
     else if A.length = (A ++ x :: B).length - 1 then some (lastIdD (A ++ x :: B) 0)
     else walkI (linkSeg 0 0 (A ++ x :: B)) (headIdD (A ++ x :: B) 0) A.length) =
      some x.id := by
  by_cases hA0 : A.length = 0
  · rw [if_pos hA0, List.length_eq_zero.mp hA0]
    rfl
  · rw [if_neg hA0]
    by_cases hAl : A.length = (A ++ x :: B).length - 1
    · rw [if_pos hAl]
      have hlen : (A ++ x :: B).length = A.length + B.length + 1 := by
        simp only [List.length_append, List.length_cons]; omega
      have hB : B = [] := by
        rw [hlen] at hAl
        exact List.length_eq_zero.mp (by omega)
      subst hB
      rw [lastIdD_append A [x] 0]
      rfl
    · rw [if_neg hAl]
      have hi : A.length < (A ++ x :: B).length := by
        simp only [List.length_append, List.length_cons]; omega
      have hw := walkI_linkSeg A.length [] (A ++ x :: B) (by simpa using h.1) hi
      simp only [List.nil_append] at hw
      rw [hw, get_append_len]

theorem pop_mkState {A : List Elem} {x : Elem} {B : List Elem}
    (h : WfElems (A ++ x :: B)) :
    akvcam_list_pop (some (mkState (A ++ x :: B))) A.length =
      some (some (mkState (A ++ B)), x.data, x.deleter, true) := by
  obtain ⟨hndA, hndB, hxA, hxB, hx0, h0A, h0B, hAB⟩ := wf_split h
  have hb := hlookup_linkSeg_split (A := A) (x := x) (B := B) h.1
  have hR := relink_remove h
  have hsel := select_mkState h
  have hhd := head_after (A := A) x B h0A
  have htl := tail_after A x (B := B) h0B
  have hlen : (A ++ x :: B).length = A.length + B.length + 1 := by
    simp only [List.length_append, List.length_cons]; omega
  have hsz : (A ++ x :: B).length - 1 = (A ++ B).length := by
    simp only [List.length_append, List.length_cons]; omega
  simp only [akvcam_list_pop, mkState]
  rw [if_neg (by rw [hlen]; omega)]
  rw [hsel]
  dsimp only
  rw [hb]
  dsimp only
  rw [hR, hhd, htl, hsz]

theorem push_back_mkState {elems : List Elem} (h : WfElems elems)
    {newId : Nat} (hnew : newId ∉ idsOf elems) (h0 : newId ≠ 0)
    (d : Option (List Nat)) (del : Option Nat) :
    akvcam_list_push_back (some (mkState elems)) d del true newId =
      (some (mkState (elems ++ [{ id := newId, data := d, deleter := del }])), true, some 0) := by
  cases elems with
  | nil => simp [akvcam_list_push_back, mkState, linkSeg, lastIdD, headIdD]
  | cons e rest =>
    have htail : lastIdD (e :: rest) 0 ≠ 0 := lastIdD_ne_zero (by simp) h.2
    simp only [akvcam_list_push_back, mkState]
    rw [if_neg (by simp), if_pos htail, hupdate_linkSeg_last (by simp) h.1]
    rw [linkSeg_append (e :: rest) [{ id := newId, data := d, deleter := del }] 0 0]
    rw [lastIdD_append (e :: rest) [{ id := newId, data := d, deleter := del }] 0]
    simp [linkSeg, headIdD, lastIdD]

theorem clearLoop_linkSeg : ∀ (elems : List Elem) (seed fuel : Nat),
    (idsOf elems).Nodup → 0 ∉ idsOf elems → elems.length ≤ fuel →
    clearLoop (linkSeg seed 0 elems) fuel (headIdD elems 0) =
      some ([], delCalls elems) := by
  intro elems
  induction elems with
  | nil =>
    intro seed fuel _ _ _
    cases fuel <;> simp [clearLoop, linkSeg, headIdD, delCalls]
  | cons e rest ih =>
    intro seed fuel hnd h0 hfuel
    cases fuel with
    | zero => simp at hfuel
    | succ f =>
      have he0 : e.id ≠ 0 := by
        intro hh
        exact h0 (by simp [← hh])
      have heR : e.id ∉ idsOf rest := (List.nodup_cons.mp (by simpa using hnd)).1
      rw [show headIdD (e :: rest) 0 = e.id from rfl]
      simp only [clearLoop]
      rw [if_neg he0]
      rw [show hlookup (linkSeg seed 0 (e :: rest)) e.id =
            some { data := e.data, deleter := e.deleter, prev := seed,
                   next := headIdD rest 0 } from by simp [linkSeg, hlookup]]
      dsimp only
      rw [show hremove (linkSeg seed 0 (e :: rest)) e.id = linkSeg e.id 0 rest from by
        rw [show linkSeg seed 0 (e :: rest) =
              (e.id, { data := e.data, deleter := e.deleter, prev := seed,
                       next := headIdD rest 0 }) :: linkSeg e.id 0 rest from rfl]
        rw [hremove_cons, if_pos rfl, hremove_linkSeg_not_mem heR]]
      rw [ih e.id f (List.nodup_cons.mp (by simpa using hnd)).2
        (fun hmem => h0 (by simp [hmem])) (by simpa using Nat.le_of_succ_le_succ hfuel)]
      rfl

theorem clear_mkState {elems : List Elem} (h : WfElems elems) :
    akvcam_list_clear (some (mkState elems)) =
      some (some { heap := [], size := 0, head := 0, tail := 0 }, delCalls elems) := by
  simp only [akvcam_list_clear, mkState]
  rw [linkSeg_length]
  rw [clearLoop_linkSeg elems 0 (elems.length + 1) h.1 h.2 (by omega)]

theorem eraseLoop_linkSeg {x : Elem} : ∀ (A2 A1 B : List Elem) (fuel : Nat),
    WfElems (A1 ++ (A2 ++ x :: B)) → A2.length < fuel →
    eraseLoop (linkSeg 0 0 (A1 ++ (A2 ++ x :: B))) x.id fuel (headIdD (A2 ++ x :: B) 0) =
      some (linkSeg 0 0 (A1 ++ (A2 ++ B)), delCallOf x.data x.deleter) := by
  intro A2
  induction A2 with
  | nil =>
    intro A1 B fuel h hfuel
    simp only [List.nil_append] at h ⊢
    obtain ⟨hndA, hndB, hxA, hxB, hx0, h0A, h0B, hAB⟩ := wf_split h
    cases fuel with
    | zero => simp at hfuel
    | succ f =>
      rw [show headIdD (x :: B) 0 = x.id from rfl]
      simp only [eraseLoop]
      rw [if_neg hx0]
      rw [hlookup_linkSeg_split (A := A1) (x := x) (B := B) h.1]
      dsimp only
      rw [if_pos trivial]
      rw [relink_remove h]
  | cons a A2 ih =>
    intro A1 B fuel h hfuel
    cases fuel with
    | zero => simp at hfuel
    | succ f =>
      have hsp := wf_split (A := A1) (x := a) (B := A2 ++ x :: B) h
      obtain ⟨hndA, hndB, haA, haB, ha0, h0A, h0B, hAB⟩ := hsp
      have hax : a.id ≠ x.id := fun hh =>
        haB (hh ▸ (by simp : x.id ∈ idsOf (A2 ++ x :: B)))
      rw [show headIdD ((a :: A2) ++ x :: B) 0 = a.id from rfl]
      simp only [eraseLoop]
      rw [if_neg ha0]
      rw [show linkSeg 0 0 (A1 ++ ((a :: A2) ++ x :: B)) =
            linkSeg 0 0 (A1 ++ a :: (A2 ++ x :: B)) by simp]
      rw [hlookup_linkSeg_split (A := A1) (x := a) (B := A2 ++ x :: B) h.1]
      dsimp only
      rw [if_neg hax]
      have hassoc : A1 ++ a :: (A2 ++ x :: B) = (A1 ++ [a]) ++ (A2 ++ x :: B) := by simp
      rw [hassoc]
      rw [ih (A1 ++ [a]) B f (by rw [← hassoc]; exact h)
        (by simpa using Nat.lt_of_succ_lt_succ hfuel)]
      rw [show (A1 ++ [a]) ++ (A2 ++ B) = A1 ++ ((a :: A2) ++ B) by simp]

theorem erase_mkState {A : List Elem} {x : Elem} {B : List Elem}
    (h : WfElems (A ++ x :: B)) :
    akvcam_list_erase (some (mkState (A ++ x :: B))) x.id =
      some ({ heap := linkSeg 0 0 (A ++ B), size := (A ++ x :: B).length,
              head := headIdD (A ++ x :: B) 0, tail := lastIdD (A ++ x :: B) 0 },
            delCallOf x.data x.deleter) := by
  simp only [akvcam_list_erase, mkState]
  rw [linkSeg_length]
  have hloop := eraseLoop_linkSeg A [] B ((A ++ x :: B).length + 1)
    (by simpa using h)
    (by simp only [List.length_append, List.length_cons]; omega)
  simp only [List.nil_append] at hloop
  rw [hloop]

theorem memcmpOpt_safe {d : Option (List Nat)} {t : List Nat} {n : Nat}
    (h : n = 0 ∨ (n ≤ t.length ∧ dataAtLeast n d = true)) :
    memcmpOpt d t n = some (memEqN d t n) := by
  rcases h with h0 | ⟨ht, hd⟩
  · subst h0
    simp [memcmpOpt, memEqN]
  · cases d with
    | none => simp [dataAtLeast] at hd
    | some b =>
      simp only [dataAtLeast, decide_eq_true_eq] at hd
      by_cases hn : n = 0
      · subst hn
        simp [memcmpOpt, memEqN]
      · simp [memcmpOpt, memEqN, hn, hd, ht]

theorem findLoop_linkSeg {t : List Nat} {n : Nat} {eq : Option EqPred} :
    ∀ (k : Nat) (A B : List Elem), (idsOf (A ++ B)).Nodup → k ≤ B.length →
    (eq.isNone = true → ∀ e ∈ B, n = 0 ∨ (n ≤ t.length ∧ dataAtLeast n e.data = true)) →
    findLoop (linkSeg 0 0 (A ++ B)) t n eq k (headIdD B 0) =
      some (((B.take k).find? (fun e => payloadMatches eq e.data t n)).map (fun e => e.id)) := by
  intro k
  induction k with
  | zero =>
    intro A B hnd hk hsafe
    simp [findLoop]
  | succ k ih =>
    intro A B hnd hk hsafe
    cases B with
    | nil => simp at hk
    | cons b B2 =>
      have hb := hlookup_linkSeg_split (A := A) (x := b) (B := B2) hnd
      have heq : A ++ b :: B2 = (A ++ [b]) ++ B2 := by simp
      have hnd2 : (idsOf ((A ++ [b]) ++ B2)).Nodup := by rw [← heq]; exact hnd
      have hk2 : k ≤ B2.length := by simpa using Nat.le_of_succ_le_succ hk
      have hsafe2 : eq.isNone = true →
          ∀ e ∈ B2, n = 0 ∨ (n ≤ t.length ∧ dataAtLeast n e.data = true) :=
        fun hn e he => hsafe hn e (by simp [he])
      rw [show headIdD (b :: B2) 0 = b.id from rfl]
      simp only [findLoop]
      rw [hb]
      dsimp only
      cases eq with
      | some f =>
        dsimp only
        by_cases hf : f b.data t n = true
        · rw [if_pos hf]
          simp [List.find?, payloadMatches, hf]
        · rw [if_neg (by simp [hf])]
          rw [heq, ih (A ++ [b]) B2 hnd2 hk2 hsafe2]
          simp [List.find?, payloadMatches, hf]
      | none =>
        dsimp only
        rw [memcmpOpt_safe (hsafe rfl b (by simp))]
        dsimp only
        by_cases hm : memEqN b.data t n = true
        · rw [if_pos hm]
          simp [List.find?, payloadMatches, hm]
        · rw [if_neg (by simp [hm])]
          rw [heq, ih (A ++ [b]) B2 hnd2 hk2 hsafe2]
          simp [List.find?, payloadMatches, hm]

theorem lastIdD_eq_getLast : ∀ (l : List Elem) (h : l ≠ []) (d : Nat),
    lastIdD l d = (l.getLast h).id := by
  intro l
  induction l with
  | nil => intro h; exact absurd rfl h
  | cons e rest ih =>
    intro h d
    cases rest with
    | nil => rfl
    | cons e2 r2 => exact ih (by simp) e.id

theorem hlookup_cons (k : Nat) (nd : Node) (h : Heap) (q : Nat) :
    hlookup ((k, nd) :: h) q = if k = q then some nd else hlookup h q := rfl

theorem hlookup_linkSeg_last_isSome : ∀ (elems : List Elem), elems ≠ [] →
    ∀ (p n d : Nat), (hlookup (linkSeg p n elems) (lastIdD elems d)).isSome = true := by
  intro elems
  induction elems with
  | nil => intro h; exact absurd rfl h
  | cons e rest ih =>
    intro h p n d
    cases rest with
    | nil => simp [linkSeg, lastIdD, hlookup]
    | cons e2 r2 =>
      rw [show lastIdD (e :: e2 :: r2) d = lastIdD (e2 :: r2) e.id from rfl]
      rw [show linkSeg p n (e :: e2 :: r2) =
            (e.id, { data := e.data, deleter := e.deleter, prev := p, next := e2.id }) ::
              linkSeg e.id n (e2 :: r2) from rfl]
      rw [hlookup_cons]
      by_cases hc : e.id = lastIdD (e2 :: r2) e.id
      · rw [if_pos hc]
        rfl
      · rw [if_neg hc]
        exact ih (by simp) e.id n e.id

/-- C1: the specification requires at(i) to return the payload handle
stored at position i for every i < size, and in particular at(size - 1)
to return the same kind of value as at(0).  The code contradicts it: on
the two element list below, at(0) returns the payload pointer of the
first element while at(1) returns the tail element node pointer itself
(list.c lines 110-111), not the stored payload. -/
theorem c1_at_last_returns_node_not_payload :
    akvcam_list_at (some (mkState [{ id := 1, data := some [10], deleter := none },
                                   { id := 2, data := some [20], deleter := none }])) 0 =
        some (CVal.bytes [10]) ∧
    akvcam_list_at (some (mkState [{ id := 1, data := some [10], deleter := none },
                                   { id := 2, data := some [20], deleter := none }])) 1 =
        some (CVal.node 2) ∧
    CVal.node 2 ≠ CVal.bytes [20] := by
  decide

/-- C2: the specification requires a failed payload duplication in
push_back_copy to report failure and leave the list unchanged.  The code
contradicts it: the result of kmemdup is passed to push_back unchecked
(list.c line 162), so with the duplication failing (NULL) and the node
allocation succeeding, push_back_copy on the empty list appends an
element whose payload is NULL, returns true, and records 0 (success) in
the last-error slot; the size changes from 0 to 1. -/
theorem c2_push_back_copy_dup_failure_appends :
    akvcam_list_push_back_copy (some (mkState [])) [1, 2, 3, 4] 4 (some 9) false true 1 =
      (some (mkState [{ id := 1, data := none, deleter := some 9 }]), true, some 0) ∧
    (mkState [{ id := 1, data := none, deleter := some 9 }]).size ≠
      (mkState ([] : List Elem)).size := by
  decide

/-- C3: the specification requires every operation, erase included, to
preserve the structural invariants.  The code contradicts it: erase never
decrements size and never updates head or tail (list.c lines 219-238), so
erasing the only element of a one element list frees the node but leaves
size = 1 with head and tail still pointing at the freed node — a state no
well-formed chain produces. -/
theorem c3_erase_breaks_invariants :
    akvcam_list_erase (some (mkState [{ id := 1, data := some [5], deleter := none }])) 1 =
      some ({ heap := [], size := 1, head := 1, tail := 1 }, []) ∧
    Wf (mkState [{ id := 1, data := some [5], deleter := none }]) ∧
    ¬ Wf { heap := [], size := 1, head := 1, tail := 1 } := by
  refine ⟨by decide,
    ⟨[{ id := 1, data := some [5], deleter := none }], by decide, rfl⟩, ?_⟩
  rintro ⟨elems, hwf, heq⟩
  cases elems with
  | nil => simp [mkState] at heq
  | cons e rest =>
    cases rest with
    | nil => simp [mkState, linkSeg] at heq
    | cons e2 r2 => simp [mkState] at heq

/-- C4: the specification requires a NULL list handle to be a safe no-op
for every operation.  That holds for size, empty, at, push_back,
push_back_copy, pop, clear, find and next, all of which test the handle,
but the code contradicts it for erase, which dereferences self->head
without any NULL check (list.c line 223) and faults (modelled as none). -/
theorem c4_null_handle_erase_faults :
    akvcam_list_erase none 1 = none ∧
    akvcam_list_size none = 0 ∧
    akvcam_list_empty none = true ∧
    akvcam_list_at none 0 = some CVal.null ∧
    akvcam_list_push_back none (some [1]) (some 2) true 5 = (none, false, none) ∧
    akvcam_list_push_back_copy none [1] 1 (some 2) true true 5 = (none, false, none) ∧
    akvcam_list_pop none 0 = some (none, none, none, false) ∧
    akvcam_list_clear none = some (none, []) ∧
    akvcam_list_find none [1] 1 none = some none ∧
    akvcam_list_next none (some 0) = some (none, some 0) := by
  decide

/-- C8 counterexample: a push on a NULL list handle is a failed push
attempt, yet the code returns false before reaching any call to
akvcam_set_last_error (list.c lines 127-128), so nothing is written to
the last-error slot (third component none instead of some code). -/
theorem c8_null_push_writes_nothing :
    akvcam_list_push_back none (some [3]) none true 4 = (none, false, none) := by
  decide

/-- C8 amended: for every push attempt on a non-NULL list handle the core
writes a status code matching the reported outcome to the last-error
slot: 0 when the push reports success and -ENOMEM (-12) when it reports
failure from node allocation exhaustion; push_back_copy inherits this
from the push_back it delegates to (a failed duplication is not reported:
the push still succeeds and writes 0, see C2). -/
theorem c8_push_writes_status (s : ListState) (d : Option (List Nat))
    (del : Option Nat) (allocOk : Bool) (newId : Nat) (src : List Nat)
    (dataSize : Nat) (dupOk : Bool) :
    (akvcam_list_push_back (some s) d del allocOk newId).2.2 =
      some (cond (akvcam_list_push_back (some s) d del allocOk newId).2.1 0 (-12)) ∧
    (akvcam_list_push_back_copy (some s) src dataSize del dupOk allocOk newId).2.2 =
      some (cond (akvcam_list_push_back_copy (some s) src dataSize del dupOk allocOk newId).2.1
        0 (-12)) := by
  constructor <;>
  · simp only [akvcam_list_push_back_copy, akvcam_list_push_back]
    cases allocOk with
    | false => simp
    | true =>
      by_cases ht : s.tail ≠ 0 <;> simp [ht]

/-- C9: on any non-empty list, find called with length 0 and a non-NULL
equality callback returns the tail element regardless of the callback and
of the stored payloads, because the zero length byte comparison performed
on the tail (list.c line 273) always succeeds. -/
theorem c9_find_zero_length_returns_tail (elems : List Elem) (t : List Nat)
    (f : EqPred) (h : elems ≠ []) :
    akvcam_list_find (some (mkState elems)) t 0 (some f) =
      some (some (lastIdD elems 0)) := by
  have hlen : 1 ≤ elems.length := by
    cases elems with
    | nil => exact absurd rfl h
    | cons _ _ => simp
  simp only [akvcam_list_find, mkState]
  rw [if_neg (by omega)]
  rw [if_neg (by simp)]
  obtain ⟨nd, hnd⟩ := Option.isSome_iff_exists.mp
    (hlookup_linkSeg_last_isSome elems h 0 0 0)
  rw [hnd]
  dsimp only
  rw [show memcmpOpt nd.data t 0 = some true from rfl]
  dsimp only
  rw [if_pos rfl]

/-- C9 witness at a concrete input: a one element list with a NULL
payload and a callback that always answers false still yields the tail
element. -/
theorem c9_witness :
    akvcam_list_find (some (mkState [{ id := 1, data := none, deleter := none }]))
        [7] 0 (some (fun _ _ _ => false)) = some (some 1) :=
  c9_find_zero_length_returns_tail [{ id := 1, data := none, deleter := none }] [7]
    (fun _ _ _ => false) (by decide)

/-- C10: next returns the stored payload of the element it advances to
(first clause); when the cursor is at the last element it returns NULL as
the end of iteration result (second clause); hence advancing onto a live
element whose stored payload is NULL returns exactly the same NULL value
as the end sentinel while the cursor still points at an element of the
chain (third clause), so a caller cannot distinguish a stored NULL
payload from exhaustion of the cursor. -/
theorem c10_next_null_payload_like_end :
    (∀ (s : ListState) (c : Nat) (nd nd2 : Node), c ≠ 0 →
        hlookup s.heap c = some nd → nd.next ≠ 0 →
        hlookup s.heap nd.next = some nd2 →
        akvcam_list_next (some s) (some c) = some (nd2.data, some nd.next)) ∧
    (∀ (s : ListState) (c : Nat) (nd : Node), c ≠ 0 →
        hlookup s.heap c = some nd → nd.next = 0 →
        akvcam_list_next (some s) (some c) = some (none, some 0)) ∧
    (∀ (s : ListState) (c : Nat) (nd nd2 : Node), c ≠ 0 →
        hlookup s.heap c = some nd → nd.next ≠ 0 →
        hlookup s.heap nd.next = some nd2 → nd2.data = none →
        akvcam_list_next (some s) (some c) = some (none, some nd.next)) := by
  refine ⟨?_, ?_, ?_⟩
  · intro s c nd nd2 hc hnd hnx hnd2
    simp [akvcam_list_next, hc, hnd, hnx, hnd2]
  · intro s c nd hc hnd hnx
    simp [akvcam_list_next, hc, hnd, hnx]
  · intro s c nd nd2 hc hnd hnx hnd2 hdata
    simp [akvcam_list_next, hc, hnd, hnx, hnd2, hdata]

/-- C10 witness at a concrete input: on the chain 1 -> 2 where element 2
stores a NULL payload, next from cursor 1 returns NULL although the
cursor advanced to the live element 2 (not the end of the chain). -/
theorem c10_witness :
    akvcam_list_next (some (mkState [{ id := 1, data := some [3], deleter := none },
                                     { id := 2, data := none, deleter := none }])) (some 1) =
      some (none, some 2) :=
  c10_next_null_payload_like_end.2.2
    (mkState [{ id := 1, data := some [3], deleter := none },
              { id := 2, data := none, deleter := none }]) 1
    { data := some [3], deleter := none, prev := 0, next := 2 }
    { data := none, deleter := none, prev := 1, next := 0 }
    (by decide) (by decide) (by decide) (by decide) rfl

/-- C6: pop at a valid index i removes exactly the element at position i
(the resulting state is the well-formed state of the same element list
with position i erased, so neighbours are relinked and head, tail and
size are correctly updated), writes its payload handle and its deleter to
the output pointers and returns true; pop at an index at or beyond the
size reports false, writes NULL to both output pointers and leaves the
list unchanged; pop on a NULL handle likewise reports false and writes
NULL to both output pointers. -/
theorem c6_pop_spec (elems : List Elem) (hwf : WfElems elems) :
    (∀ (i : Nat) (hi : i < elems.length),
        akvcam_list_pop (some (mkState elems)) i =
          some (some (mkState (elems.eraseIdx i)),
                (elems.get ⟨i, hi⟩).data, (elems.get ⟨i, hi⟩).deleter, true)) ∧
    (∀ i : Nat, elems.length ≤ i →
        akvcam_list_pop (some (mkState elems)) i =
          some (some (mkState elems), none, none, false)) ∧
    (∀ i : Nat, akvcam_list_pop none i = some (none, none, none, false)) := by
  refine ⟨?_, ?_, fun i => rfl⟩
  · intro i hi
    have hdecomp : elems = elems.take i ++ elems.get ⟨i, hi⟩ :: elems.drop (i + 1) := by
      conv_lhs => rw [← List.take_append_drop i elems]
      rw [List.drop_eq_get_cons hi]
    have hlen : (elems.take i).length = i := by
      rw [List.length_take]
      omega
    have herase : elems.eraseIdx i = elems.take i ++ elems.drop (i + 1) :=
      List.eraseIdx_eq_take_drop_succ elems i
    calc akvcam_list_pop (some (mkState elems)) i
        = akvcam_list_pop
            (some (mkState (elems.take i ++ elems.get ⟨i, hi⟩ :: elems.drop (i + 1))))
            (elems.take i).length := by rw [← hdecomp, hlen]
      _ = some (some (mkState (elems.take i ++ elems.drop (i + 1))),
            (elems.get ⟨i, hi⟩).data, (elems.get ⟨i, hi⟩).deleter, true) :=
          pop_mkState (by rw [← hdecomp]; exact hwf)
      _ = some (some (mkState (elems.eraseIdx i)),
            (elems.get ⟨i, hi⟩).data, (elems.get ⟨i, hi⟩).deleter, true) := by
          rw [herase]
  · intro i hle
    simp only [akvcam_list_pop, mkState]
    rw [if_pos (Or.inl hle)]

/-- C6 witness at a concrete input: popping index 0 of a two element list
yields the one element list, the payload of the removed head and its
(absent) deleter, and reports true. -/
theorem c6_witness :
    akvcam_list_pop (some (mkState [{ id := 1, data := some [1], deleter := none },
                                    { id := 2, data := some [2], deleter := some 5 }])) 0 =
      some (some (mkState [{ id := 2, data := some [2], deleter := some 5 }]),
            some [1], none, true) :=
  (c6_pop_spec [{ id := 1, data := some [1], deleter := none },
                { id := 2, data := some [2], deleter := some 5 }] (by decide)).1 0 (by decide)

/-- C5 counterexample: an element whose deleter is present but whose
payload handle is NULL is removed by clear without its deleter ever being
invoked, because the code guards the invocation with
element->data && element->deleter (list.c line 251); the claim as stated
(deleter invoked exactly once when the element is removed via clear) is
false — the call log is empty, not the one invocation [7]. -/
theorem c5_null_payload_deleter_skipped :
    akvcam_list_clear (some (mkState [{ id := 1, data := none, deleter := some 7 }])) =
      some (some { heap := [], size := 0, head := 0, tail := 0 }, []) ∧
    ([] : List Nat) ≠ [7] := by
  decide

/-- C5 amended: restricted to elements whose payload handle is non NULL:
clear invokes the deleter of every element having both payload and
deleter exactly once, in head to tail order, and never touches the
deleters of the other elements (first clause, the call log is exactly
delCalls); erase of a chain element performs exactly the deleter calls of
that one element — one call when payload and deleter are both present,
none otherwise (second clause); pop performs no deleter call at all and
instead hands the removed element deleter back to the caller (third
clause). -/
theorem c5_deleter_calls (elems A B : List Elem) (x : Elem)
    (hwf : WfElems elems) (hwfx : WfElems (A ++ x :: B)) :
    (akvcam_list_clear (some (mkState elems)) =
        some (some { heap := [], size := 0, head := 0, tail := 0 }, delCalls elems)) ∧
    ((akvcam_list_erase (some (mkState (A ++ x :: B))) x.id).map (fun r => r.2) =
        some (delCallOf x.data x.deleter)) ∧
    (akvcam_list_pop (some (mkState (A ++ x :: B))) A.length =
        some (some (mkState (A ++ B)), x.data, x.deleter, true)) := by
  refine ⟨clear_mkState hwf, ?_, pop_mkState hwfx⟩
  rw [erase_mkState hwfx]
  rfl

/-- C5 witness at a concrete input: clearing a three element list whose
elements are (payload, deleter 7), (NULL payload, deleter 8) and
(payload, no deleter) invokes exactly deleter 7 once. -/
theorem c5_witness :
    akvcam_list_clear (some (mkState [{ id := 1, data := some [3], deleter := some 7 },
                                      { id := 2, data := none, deleter := some 8 },
                                      { id := 3, data := some [4], deleter := none }])) =
      some (some { heap := [], size := 0, head := 0, tail := 0 }, [7]) :=
  (c5_deleter_calls [{ id := 1, data := some [3], deleter := some 7 },
                     { id := 2, data := none, deleter := some 8 },
                     { id := 3, data := some [4], deleter := none }]
    [] [] { id := 9, data := none, deleter := none } (by decide) (by decide)).1

theorem find_mk_split (L : List Elem) (z : Elem) (t : List Nat) (n : Nat)
    (eq : Option EqPred) (hwf : WfElems (L ++ [z]))
    (hsafe : ∀ e ∈ L ++ [z], n = 0 ∨ (n ≤ t.length ∧ dataAtLeast n e.data = true)) :
    akvcam_list_find (some (mkState (L ++ [z]))) t n eq =
      some (findList (L ++ [z]) t n eq) := by
  have hz_id : lastIdD (L ++ [z]) 0 = z.id := by
    rw [lastIdD_append]
    rfl
  simp only [akvcam_list_find, mkState]
  rw [if_neg (by simp)]
  by_cases hdeg : (n == 0 && eq.isNone) = true
  · rw [if_pos hdeg]
    have hd2 : n = 0 ∧ eq.isNone = true := by
      simpa [Bool.and_eq_true] using hdeg
    simp only [findList]
    rw [List.getLast?_concat]
    dsimp only
    rw [if_pos hd2]
  · rw [if_neg hdeg]
    rw [hz_id, hlookup_linkSeg_split (A := L) (x := z) (B := []) hwf.1]
    dsimp only
    rw [memcmpOpt_safe (hsafe z (by simp))]
    dsimp only
    simp only [findList]
    rw [List.getLast?_concat]
    dsimp only
    have hdeg2 : ¬ (n = 0 ∧ eq.isNone = true) := by
      intro hc
      exact hdeg (by simp [hc.1, hc.2])
    rw [if_neg hdeg2]
    by_cases hm : memEqN z.data t n = true
    · rw [if_pos hm, if_pos hm]
    · rw [if_neg hm, if_neg hm]
      have hcount : (L ++ [z]).length - 1 = L.length := by simp
      rw [hcount]
      have hloop := @findLoop_linkSeg t n eq L.length []
        (L ++ [z]) (by simpa using hwf.1) (by simp) (fun _ e he => hsafe e he)
      simp only [List.nil_append] at hloop
      rw [hloop, List.take_left, List.dropLast_concat]

/-- C7: find returns not-found when the list is empty or when neither a
length nor an equality callback is supplied; otherwise (on payloads wide
enough for the requested memcmp width, so that no comparison faults) it
first checks the tail by exact byte comparison of length bytes regardless
of whether a callback is supplied, and then scans positions 0 through
size - 2 from the head using the callback when supplied and byte equality
otherwise, returning the first match in that tail first, then head to
size - 2 order — exactly the specification level findList. -/
theorem c7_find_matches_spec (elems : List Elem) (t : List Nat) (n : Nat)
    (eq : Option EqPred) (hwf : WfElems elems)
    (hsafe : ∀ e ∈ elems, n = 0 ∨ (n ≤ t.length ∧ dataAtLeast n e.data = true)) :
    akvcam_list_find (some (mkState elems)) t n eq = some (findList elems t n eq) := by
  by_cases hne : elems = []
  · subst hne
    simp [akvcam_list_find, mkState, findList, linkSeg]
  · have hsplit : elems = elems.dropLast ++ [elems.getLast hne] :=
      (List.dropLast_append_getLast hne).symm
    rw [hsplit] at hwf hsafe ⊢
    exact find_mk_split _ _ t n eq hwf hsafe

/-- C7 witness at a concrete input: a two element list searched by byte
equality for the bytes of the first element; the tail does not match, the
head does, and find returns element 1 as findList prescribes. -/
theorem c7_witness :
    akvcam_list_find (some (mkState [{ id := 1, data := some [1, 2], deleter := none },
                                     { id := 2, data := some [3, 4], deleter := none }]))
        [1, 2] 2 none = some (some 1) := by
  have h := c7_find_matches_spec [{ id := 1, data := some [1, 2], deleter := none },
      { id := 2, data := some [3, 4], deleter := none }] [1, 2] 2 none (by decide) (by decide)
  rw [h]
  decide

end Akvcam
